import Mathlib

/-!
Verification of the generative-ai-toolkit core: a shallow embedding of
`src/generative_ai_toolkit/tracer/tracer.py` and
`src/generative_ai_toolkit/agent/agent.py`, with theorems settling the
frozen claims about span lifecycle, tracer queries, tool dispatch,
the conversation loop and streaming reconstruction.
-/

namespace GenAIToolkit

/-- Scalar attribute values of a span, including the explicit Python
`None`.  Modelled from the spec: `generative_ai_toolkit/tracer/trace.py`
is not part of the sources; the spec describes span attributes as an
ordered key-to-value map whose values may be an explicit null
(distinct from the key being absent). -/
inductive AttrValue where
  | null
  | bool (b : Bool)
  | num (n : Int)
  | str (s : String)
deriving DecidableEq, Repr

/-- A span record.  Modelled from the spec: the `Trace` class of
`generative_ai_toolkit/tracer/trace.py` is not part of the sources; the
spec lists its fields: trace_id, span_id, span_name, span_kind,
started_at/ended_at (ended_at set exactly once, on completion or error),
status in {OK, ERROR}, attributes (ordered key-to-value map).
Timestamps are abstracted as naturals. -/
structure Trace where
  span_name : String
  trace_id : String
  span_id : String
  started_at : Nat
  ended_at : Option Nat
  span_status : String
  attributes : List (String × AttrValue)
deriving DecidableEq, Repr

/-- `Trace.add_attribute`: write a key into the ordered attribute map,
overwriting an existing binding in place, appending otherwise.
Modelled from the spec: `trace.py` is not in the sources; the spec says
attributes form an ordered key-to-value map. -/
def Trace.add_attribute (t : Trace) (k : String) (v : AttrValue) : Trace :=
  if t.attributes.any (fun p => p.1 = k) then
    { t with attributes := t.attributes.map (fun p => if p.1 = k then (k, v) else p) }
  else
    { t with attributes := t.attributes ++ [(k, v)] }

/-- The data of a Python exception as recorded by the span persistor:
`exc_type.__name__`, `str(exc_value)`, and the formatted traceback. -/
structure ExcInfo where
  excType : String
  excMessage : String
  excTraceback : String
deriving DecidableEq, Repr

/-- What leaves `ContextAwareSpanPersistor.__exit__`: the finished
span, the persisted spans after the call, and whether the returned
value suppresses an active exception (Python re-raises it when the
`__exit__` return value is falsy). -/
structure SpanExitResult where
  finishedSpan : Trace
  persisted : List Trace
  suppressesException : Bool
deriving DecidableEq, Repr

/-- `ContextAwareSpanPersistor.__exit__` (tracer.py:239-249): sets
`ended_at`; if an exception is active, sets status ERROR and records
exception type / message / traceback as attributes; then always calls
the persistor.  Persistence is modelled by appending the finished span
to the persisted list.  `suppressesException` models the return value
of `__exit__`: it is always `None` (falsy), i.e. the exception is never
suppressed. -/
def ContextAwareSpanPersistor.exit__ (t : Trace) (now : Nat) (exc : Option ExcInfo)
    (persisted : List Trace) : SpanExitResult :=
  let t := { t with ended_at := some now }
  let t :=
    match exc with
    | none => t
    | some e =>
      let t := { t with span_status := "ERROR" }
      let t := t.add_attribute "exception.type" (.str e.excType)
      let t := t.add_attribute "exception.message" (.str e.excMessage)
      t.add_attribute "exception.traceback" (.str e.excTraceback)
  { finishedSpan := t, persisted := persisted ++ [t], suppressesException := false }

/-- Python `with` statement semantics at the exit: the active exception
propagates to the caller exactly when `__exit__` returned a falsy
value (here always `None`, i.e. `suppresses = false`). -/
def withStatementReraises (excOccurred : Bool) (suppresses : Bool) : Bool :=
  excOccurred && !suppresses

/-- Stable insertion of a span into a list sorted by `started_at`,
placing it before the first span that does not start strictly earlier.
Together with `sortByStartedAt` this models Python's stable
`sorted(self._memory, key=lambda t: t.started_at)` in
`InMemoryTracer.get_traces`. -/
def insertByStartedAt (t : Trace) : List Trace → List Trace
  | [] => [t]
  | u :: us =>
    if t.started_at ≤ u.started_at then t :: u :: us
    else u :: insertByStartedAt t us

/-- Stable sort of the in-memory span buffer by `started_at`. -/
def sortByStartedAt : List Trace → List Trace
  | [] => []
  | t :: ts => insertByStartedAt t (sortByStartedAt ts)

/-- The boolean match of one attribute-filter entry against a span, as
in `InMemoryTracer.get_traces`: `k in trace.attributes and
trace.attributes[k] == v`. -/
def attrEntryMatches (t : Trace) (kv : String × AttrValue) : Bool :=
  match t.attributes.lookup kv.1 with
  | some v => v = kv.2
  | none => false

/-- `InMemoryTracer.get_traces` (tracer.py:377-391): sorts the buffer
by start time and keeps the spans for which every attribute-filter
entry matches (`not attribute_filter or all(...)`).  The `trace_id`
parameter appears in the signature but is not used by the body; an
absent filter is `none`. -/
def InMemoryTracer.get_traces (memory : List Trace) (trace_id : Option String)
    (attribute_filter : Option (List (String × AttrValue))) : List Trace :=
  let _ := trace_id
  (sortByStartedAt memory).filter (fun t =>
    match attribute_filter with
    | none => true
    | some f => !decide (f ≠ []) || f.all (fun kv => attrEntryMatches t kv))

/-- A child tracer of a `TeeTracer`, reduced to the data the Tee logic
inspects: an identity (for `list.remove`) and the outcome of
`isinstance(tracer, SnapshotCapableTracer)`. -/
structure ChildTracer where
  cid : Nat
  isSnapshotCapable : Bool
deriving DecidableEq, Repr

/-- The state of a `TeeTracer`: its child list and its
`snapshot_enabled` flag (initially `false`, from `BaseTracer.__init__`). -/
structure TeeState where
  tracers : List ChildTracer
  snapshot_enabled : Bool
deriving DecidableEq, Repr

/-- A fresh `TeeTracer()`. -/
def TeeTracer.init : TeeState := { tracers := [], snapshot_enabled := false }

/-- `TeeTracer.add_tracer` (tracer.py:418-422): if snapshots are not
yet enabled and the new child is snapshot-capable, enable them; then
append the child. -/
def TeeTracer.add_tracer (s : TeeState) (t : ChildTracer) : TeeState :=
  let enabled :=
    if !s.snapshot_enabled && t.isSnapshotCapable then true else s.snapshot_enabled
  { tracers := s.tracers ++ [t], snapshot_enabled := enabled }

/-- The flag-recomputation loop of `TeeTracer.remove_tracer`
(tracer.py:426-430): iterate over the remaining children; on a
snapshot-capable child, break, leaving the flag as it currently is; on
any other child, set the flag to `false` and continue. -/
def TeeTracer.removeLoop : List ChildTracer → Bool → Bool
  | [], enabled => enabled
  | c :: cs, enabled =>
    if c.isSnapshotCapable then enabled else TeeTracer.removeLoop cs false

/-- `TeeTracer.remove_tracer` (tracer.py:424-432): remove the first
occurrence of the child (`list.remove` raises `ValueError` when the
child is absent, modelled as `Except.error`), then run the
flag-recomputation loop over the remaining children. -/
def TeeTracer.remove_tracer (s : TeeState) (t : ChildTracer) : Except String TeeState :=
  if t ∈ s.tracers then
    let remaining := s.tracers.erase t
    .ok { tracers := remaining,
          snapshot_enabled := TeeTracer.removeLoop remaining s.snapshot_enabled }
  else
    .error "list.remove(x): x not in list"

/-! ## Agent (`agent.py`) -/

/-- A Python/JSON value as handled by the tool dispatcher: tool inputs,
tool return values and the structured tool-result bodies. -/
inductive Json where
  | null
  | bool (b : Bool)
  | num (n : Int)
  | str (s : String)
  | arr (elems : List Json)
  | obj (fields : List (String × Json))

/-- `isinstance(value, dict)`. -/
def Json.isDict : Json → Bool
  | .obj _ => true
  | _ => false

/-- Python truthiness of a value (`if tool_response:`): `None`, `False`,
zero, the empty string, list and dict are falsy. -/
def Json.pyTruthy : Json → Bool
  | .null => false
  | .bool b => b
  | .num n => n != 0
  | .str s => s != ""
  | .arr xs => !xs.isEmpty
  | .obj fs => !fs.isEmpty

/-- Python truthiness of an optional value (`None` is falsy). -/
def pyTruthyOpt : Option Json → Bool
  | none => false
  | some v => v.pyTruthy

/-- One `toolUse` content block: `{"toolUseId": ..., "name": ...,
"input": ...}`. -/
structure ToolUse where
  toolUseId : String
  name : String
  input : Json

/-- The outcome of `tool.invoke(**input)`: a returned value, or a raised
exception carrying `str(err)`. -/
inductive ToolOutcome where
  | ok (value : Json)
  | raised (message : String)

/-- The registered tools: `self.tools`, a name-keyed mapping to
invocable tools (each modelled by its outcome function). -/
def ToolTable := List (String × (Json → ToolOutcome))

/-- One structured tool result `{"toolResult": {"toolUseId": ...,
"status": ..., "content": [{"json": body}]}}`, reduced to its three
varying parts. -/
structure ToolResult where
  toolUseId : String
  status : String
  body : Json

/-- The `try` block of `BedrockConverseAgent._invoke_tool`
(agent.py:486-496): look the tool up (`raise ValueError(f"Unknown tool: ...")`
when absent) and invoke it; any exception is captured as `.raised`. -/
def toolOutcome (tools : ToolTable) (tool_use : ToolUse) : ToolOutcome :=
  match List.lookup tool_use.name tools with
  | none => .raised ("Unknown tool: " ++ tool_use.name)
  | some f => f tool_use.input

/-- `BedrockConverseAgent._invoke_tool` (agent.py:470-518): runs the
tool under a span, never re-raises; a non-dict return value is wrapped
as `{"toolResponse": value}`; the result body is the (wrapped) response
when it is a non-empty dict, else `{"message": "Error invoking tool: <err>"}`
on error or `{"message": "Success"}` on success. -/
def BedrockConverseAgent.invoke_tool (tools : ToolTable) (tool_use : ToolUse) : ToolResult :=
  let outcome := toolOutcome tools tool_use
  let tool_error : Option String :=
    match outcome with
    | .raised m => some m
    | .ok _ => none
  let tool_response : Option Json :=
    match outcome with
    | .ok v => some (if v.isDict then v else .obj [("toolResponse", v)])
    | .raised _ => none
  { toolUseId := tool_use.toolUseId
    status := if tool_error.isNone then "success" else "error"
    body :=
      if pyTruthyOpt tool_response then tool_response.getD .null
      else
        .obj [("message", .str (match tool_error with
          | some m => "Error invoking tool: " ++ m
          | none => "Success"))] }

/-- A content block of an (assembled) message. -/
inductive MsgContent where
  | text (s : String)
  | toolUse (tu : ToolUse)
  | toolResult (r : ToolResult)
  | other

/-- A conversation message. -/
structure Message where
  role : String
  content : List MsgContent

/-- The text content blocks of a message's content, in order
(`if "text" in message`). -/
def textBlocks (content : List MsgContent) : List String :=
  content.filterMap fun m =>
    match m with
    | .text s => some s
    | _ => none

/-- The toolUse content blocks of a message's content, in order
(`if "toolUse" in message`). -/
def toolUseBlocks (content : List MsgContent) : List ToolUse :=
  content.filterMap fun m =>
    match m with
    | .toolUse tu => some tu
    | _ => none

/-- `BedrockConverseAgent._invoke_tools` (agent.py:457-468): invoke
every requested tool; `executor.map` preserves the order of its inputs,
so results are in the order the toolUse blocks appeared. -/
def BedrockConverseAgent.invoke_tools (tools : ToolTable) (blocks : List ToolUse) : List ToolResult :=
  blocks.map (BedrockConverseAgent.invoke_tool tools)

/-- The user message appended for the caller's input. -/
def userMessage (s : String) : Message :=
  { role := "user", content := [.text s] }

/-- The user message carrying the cycle's tool results. -/
def toolResultMessage (rs : List ToolResult) : Message :=
  { role := "user", content := rs.map .toolResult }

/-- `"\n".join(texts)` (Python string join). -/
def joinNewline : List String → String
  | [] => ""
  | [t] => t
  | t :: ts => t ++ "\n" ++ joinNewline ts

/-- Plain concatenation of a list of strings. -/
def concatAll : List String → String
  | [] => ""
  | s :: ss => s ++ concatAll ss

/-- One non-streaming model response: the assistant message content and
the stop reason. -/
structure ModelResponse where
  content : List MsgContent
  stopReason : String

/-- `BedrockConverseAgent.__init__` (agent.py:305-307): a negative
`max_successive_tool_invocations` raises
`ValueError("max_successive_tool_invocations must be positive")`;
otherwise `max_converse_iterations` is set to one more than it. -/
def BedrockConverseAgent.initMaxConverseIterations (m : Int) : Except String Nat :=
  if m < 0 then .error "max_successive_tool_invocations must be positive"
  else .ok (m.toNat + 1)

/-- Observable outcome of one `converse()` call: the returned text or
the raised error, the conversation history, and how many tool-use
cycles dispatched tools. -/
structure ConverseResult where
  result : Except String String
  history : List Message
  toolDispatchCycles : Nat

/-- The `for _ in range(self.max_converse_iterations)` loop of
`BedrockConverseAgent.converse` (agent.py:588-655), driven by the list
of model responses the Bedrock collaborator returns in order.  Each
iteration records the response's text blocks, appends the assistant
message; on stop-reason `tool_use` it dispatches the tools, appends
their results and continues; on `end_turn` it returns the
newline-joined texts; any other stop reason raises.  Exhausting the
loop raises the (literal, non-interpolated) too-many-invocations
message; an exhausted response list models the Bedrock client itself
raising. -/
def BedrockConverseAgent.converseLoop (tools : ToolTable) :
    List ModelResponse → Nat → List String → List Message → Nat → ConverseResult
  | _, 0, _, history, d =>
    { result := .error "Too many successive tool invocations:\x7bself.max_converse_iterations\x7d "
      history := history, toolDispatchCycles := d }
  | [], _ + 1, _, history, d =>
    { result := .error "bedrock client error", history := history, toolDispatchCycles := d }
  | r :: rs, fuel + 1, texts, history, d =>
    let texts := texts ++ textBlocks r.content
    let history := history ++ [{ role := "assistant", content := r.content }]
    if r.stopReason = "tool_use" then
      let results := BedrockConverseAgent.invoke_tools tools (toolUseBlocks r.content)
      BedrockConverseAgent.converseLoop tools rs fuel texts
        (history ++ [toolResultMessage results]) (d + 1)
    else if r.stopReason = "end_turn" then
      { result := .ok (joinNewline texts), history := history, toolDispatchCycles := d }
    else
      { result := .error "Unexpected LLM response", history := history, toolDispatchCycles := d }

/-- `BedrockConverseAgent.converse` (agent.py:520-655): record the
span attributes (no history effect), raise
`ValueError("Missing user input")` on empty input before any message is
appended, else append the user message and run the cycle loop. -/
def BedrockConverseAgent.converse (tools : ToolTable) (user_input : String)
    (history : List Message) (responses : List ModelResponse) (maxIter : Nat) : ConverseResult :=
  if user_input = "" then
    { result := .error "Missing user input", history := history, toolDispatchCycles := 0 }
  else
    BedrockConverseAgent.converseLoop tools responses maxIter []
      (history ++ [userMessage user_input]) 0

/-! ## Streaming reconstruction (`converse_stream`, agent.py:657-858) -/

/-- The `toolUse` sub-dict of a content block while streaming: keys may
be absent, and `input` is raw concatenated fragment text until the
post-stream parse. -/
structure ToolUseRaw where
  toolUseId : Option String
  name : Option String
  input : Option String

/-- A content block dict as it evolves during streaming. -/
inductive RawBlock where
  | text (s : String)
  | toolUse (t : ToolUseRaw)
  | other

/-- A content-block delta payload: `{"text": ...}`,
`{"toolUse": {"input": ...}}`, or some other delta kind. -/
inductive Delta where
  | text (s : String)
  | toolUseInput (s : String)
  | other

/-- A `contentBlockDelta` event: a delta addressed by a zero-based
content-block index. -/
structure ContentBlockDelta where
  contentBlockIndex : Nat
  delta : Delta

/-- A new content block created from a bare delta (the dict appended by
`content_blocks.append(delta)`). -/
def deltaAsNewBlock : Delta → RawBlock
  | .text s => .text s
  | .toolUseInput s => .toolUse { toolUseId := none, name := none, input := some s }
  | .other => .other

/-- `update_content_block` (agent.py:728-747): if the addressed index
is beyond the current list, append the delta as a new block; otherwise
string-concatenate a text delta onto an existing text block, or a
tool-input delta onto the existing toolUse block's raw `input`
(defaulting to `""`); a kind mismatch raises; any other delta kind on
an existing block is ignored. -/
def update_content_block (content_blocks : List RawBlock) (d : ContentBlockDelta) :
    Except String (List RawBlock) :=
  let i := d.contentBlockIndex
  if content_blocks.length < i + 1 then
    .ok (content_blocks ++ [deltaAsNewBlock d.delta])
  else
    match d.delta with
    | .text s =>
      match content_blocks.getD i .other with
      | .text t => .ok (content_blocks.set i (.text (t ++ s)))
      | _ => .error "Expect existing text content block"
    | .toolUseInput s =>
      match content_blocks.getD i .other with
      | .toolUse t =>
        .ok (content_blocks.set i (.toolUse { t with input := some (t.input.getD "" ++ s) }))
      | _ => .error "Expect existing toolUse content block"
    | .other => .ok content_blocks

/-- One event of the response stream. -/
inductive StreamEvent where
  | messageStart (role : String)
  | contentBlockStart (b : RawBlock)
  | contentBlockDelta (d : ContentBlockDelta)
  | messageStop (stopReason : String)
  | metadata

/-- The loop state of one `for stream_event in response["stream"]` pass
(agent.py:777-811), plus the text fragments yielded so far, in order. -/
structure CycleState where
  messageRole : Option String
  content_blocks : List RawBlock
  stop_reason : Option String
  metadataSeen : Bool
  fragments : List String

/-- The state at the top of the event loop. -/
def initCycleState : CycleState :=
  { messageRole := none, content_blocks := [], stop_reason := none
    metadataSeen := false, fragments := [] }

/-- One iteration of the event loop (agent.py:783-811): messageStart
records the role; contentBlockStart appends the block;
contentBlockDelta updates the blocks and then yields a non-empty text
delta; messageStop records the stop reason and yields the `"\n"`
separator; metadata is recorded. -/
def processStreamEvent (st : CycleState) : StreamEvent → Except String CycleState
  | .messageStart role => .ok { st with messageRole := some role }
  | .contentBlockStart b => .ok { st with content_blocks := st.content_blocks ++ [b] }
  | .contentBlockDelta d => do
    let blocks ← update_content_block st.content_blocks d
    let frag :=
      match d.delta with
      | .text t => if t ≠ "" then [t] else []
      | _ => []
    .ok { st with content_blocks := blocks, fragments := st.fragments ++ frag }
  | .messageStop r => .ok { st with stop_reason := some r, fragments := st.fragments ++ ["\n"] }
  | .metadata => .ok { st with metadataSeen := true }

/-- Run the event loop, stopping at the first raising event but keeping
the state reached so far (fragments already yielded stay yielded). -/
def runStreamCycleAux (st : CycleState) : List StreamEvent → CycleState × Option String
  | [] => (st, none)
  | e :: es =>
    match processStreamEvent st e with
    | .ok st' => runStreamCycleAux st' es
    | .error msg => (st, some msg)

/-- The fragments one cycle's event stream yields. -/
def cycleFragments (events : List StreamEvent) : List String :=
  (runStreamCycleAux initCycleState events).1.fragments

/-- The post-loop parse of a content block (agent.py:828-833): a
toolUse block's raw input is read (`KeyError` when the key never
arrived) and replaced by `json.loads(str(tool_input))`, or by `{}` when
it is falsy; other blocks are unchanged.  `parse` stands for
`json.loads`; absent toolUse metadata defaults to `""` in the final
record. -/
def finalizeBlock (parse : String → Json) : RawBlock → Except String MsgContent
  | .text s => .ok (.text s)
  | .toolUse t =>
    match t.input with
    | none => .error "KeyError: input"
    | some raw =>
      .ok (.toolUse { toolUseId := t.toolUseId.getD "", name := t.name.getD ""
                      input := if raw = "" then .obj [] else parse raw })
  | .other => .ok .other

/-- The post-loop steps of one cycle (agent.py:813-833): raise on
missing metadata, then on missing stop reason; the finalize loop
parses the accumulated `content_blocks` (its errors propagate)
regardless of whether a messageStart arrived.  Returns the message to
append to history — whose content is the finalized blocks when a
messageStart arrived (`message["content"]` aliases `content_blocks`),
or an empty assistant message otherwise — together with the finalized
blocks themselves (which the caller dispatches from) and the stop
reason. -/
def finishStreamCycle (parse : String → Json) (st : CycleState) :
    Except String (Message × List MsgContent × String) :=
  if !st.metadataSeen then .error "Incomplete response stream: missing metadata"
  else
    match st.stop_reason with
    | none => .error "Incomplete response stream: missing stop_reason"
    | some stop_reason =>
      match st.content_blocks.mapM (finalizeBlock parse) with
      | .error e => .error e
      | .ok content =>
        .ok
          (match st.messageRole with
            | some role => { role := role, content := content }
            | none => { role := "assistant", content := [] },
          content, stop_reason)

/-- The reconstructed model response of one cycle: the finalized
content blocks together with the stop reason (equal to the assembled
message's content whenever a messageStart arrived). -/
def assembledResponse (parse : String → Json) (events : List StreamEvent) :
    Except String ModelResponse :=
  match runStreamCycleAux initCycleState events with
  | (_, some e) => .error e
  | (st, none) =>
    match finishStreamCycle parse st with
    | .error e => .error e
    | .ok (_, content, stop) => .ok { content := content, stopReason := stop }

/-- Observable outcome of one `converse_stream()` call: normal or
raising termination, the text fragments yielded in order, the
conversation history, and the number of tool-dispatching cycles. -/
structure ConverseStreamResult where
  result : Except String Unit
  fragments : List String
  history : List Message
  toolDispatchCycles : Nat

/-- The cycle loop of `BedrockConverseAgent.converse_stream`
(agent.py:751-856), driven by the per-cycle event streams the Bedrock
collaborator returns in order.  Each cycle runs the event loop
(yielding fragments), finishes the cycle (raising on incomplete
streams), appends the assembled assistant message; on `tool_use` it
dispatches the tools on the parsed toolUse blocks, appends their
results and continues; on `end_turn` it completes; exhausting the loop
raises the too-many-invocations error. -/
def BedrockConverseAgent.converseStreamLoop (parse : String → Json) (tools : ToolTable) :
    List (List StreamEvent) → Nat → List String → List Message → Nat → ConverseStreamResult
  | _, 0, frags, history, d =>
    { result := .error "Too many successive tool invocations"
      fragments := frags, history := history, toolDispatchCycles := d }
  | [], _ + 1, frags, history, d =>
    { result := .error "bedrock client error"
      fragments := frags, history := history, toolDispatchCycles := d }
  | ev :: rest, fuel + 1, frags, history, d =>
    match runStreamCycleAux initCycleState ev with
    | (st, some e) =>
      { result := .error e, fragments := frags ++ st.fragments
        history := history, toolDispatchCycles := d }
    | (st, none) =>
      let frags := frags ++ st.fragments
      match finishStreamCycle parse st with
      | .error e =>
        { result := .error e, fragments := frags, history := history, toolDispatchCycles := d }
      | .ok (message, content, stop_reason) =>
        let history := history ++ [message]
        if stop_reason = "tool_use" then
          let results := BedrockConverseAgent.invoke_tools tools (toolUseBlocks content)
          BedrockConverseAgent.converseStreamLoop parse tools rest fuel frags
            (history ++ [toolResultMessage results]) (d + 1)
        else if stop_reason = "end_turn" then
          { result := .ok (), fragments := frags, history := history, toolDispatchCycles := d }
        else
          { result := .error "Unexpected LLM response", fragments := frags
            history := history, toolDispatchCycles := d }

/-- `BedrockConverseAgent.converse_stream` (agent.py:657-858): record
the span attributes (no history effect), raise
`ValueError("Missing user input")` on empty input before any message is
appended, else append the user message and run the cycle loop. -/
def BedrockConverseAgent.converse_stream (parse : String → Json) (tools : ToolTable)
    (user_input : String) (history : List Message)
    (cycles : List (List StreamEvent)) (maxIter : Nat) : ConverseStreamResult :=
  if user_input = "" then
    { result := .error "Missing user input", fragments := [], history := history
      toolDispatchCycles := 0 }
  else
    BedrockConverseAgent.converseStreamLoop parse tools cycles maxIter []
      (history ++ [userMessage user_input]) 0

/-! ## Attribute-map lemmas -/

theorem lookup_map_overwrite (l : List (String × AttrValue)) (k : String) (v : AttrValue)
    (h : l.any (fun p => p.1 = k) = true) :
    (l.map fun p => if p.1 = k then (k, v) else p).lookup k = some v := by
  induction l with
  | nil => simp at h
  | cons p ps ih =>
    obtain ⟨k', v'⟩ := p
    by_cases hp : k' = k
    · rw [List.map_cons, if_pos hp, List.lookup_cons]
      simp
    · rw [List.map_cons, if_neg hp, List.lookup_cons]
      have hb : (k == k') = false := by
        simp only [beq_eq_false_iff_ne, ne_eq]
        exact fun hh => hp hh.symm
      simp only [hb]
      apply ih
      simp only [List.any_cons, Bool.or_eq_true, decide_eq_true_eq] at h
      rcases h with h | h
      · exact absurd h hp
      · exact h

theorem lookup_append_new (l : List (String × AttrValue)) (k : String) (v : AttrValue)
    (h : l.any (fun p => p.1 = k) = false) :
    (l ++ [(k, v)]).lookup k = some v := by
  induction l with
  | nil => simp [List.lookup_cons]
  | cons p ps ih =>
    obtain ⟨k', v'⟩ := p
    simp only [List.any_cons, Bool.or_eq_false_iff, decide_eq_false_iff_not] at h
    rw [List.cons_append, List.lookup_cons]
    have hb : (k == k') = false := by
      simp only [beq_eq_false_iff_ne, ne_eq]
      exact fun hh => h.1 hh.symm
    simp only [hb]
    exact ih h.2

theorem lookup_map_overwrite_ne (l : List (String × AttrValue)) (k : String) (v : AttrValue)
    (k' : String) (h : k' ≠ k) :
    (l.map fun p => if p.1 = k then (k, v) else p).lookup k' = l.lookup k' := by
  induction l with
  | nil => rfl
  | cons p ps ih =>
    obtain ⟨k'', v''⟩ := p
    by_cases hp : k'' = k
    · rw [List.map_cons, if_pos hp, List.lookup_cons, List.lookup_cons]
      have hb : (k' == k) = false := by
        simp only [beq_eq_false_iff_ne, ne_eq]
        exact h
      have hb2 : (k' == k'') = false := by rw [hp]; exact hb
      simp only [hb, hb2]
      exact ih
    · rw [List.map_cons, if_neg hp, List.lookup_cons, List.lookup_cons]
      cases hb : k' == k''
      · simp only [ih]
      · rfl

theorem lookup_append_ne (l : List (String × AttrValue)) (k : String) (v : AttrValue)
    (k' : String) (h : k' ≠ k) :
    (l ++ [(k, v)]).lookup k' = l.lookup k' := by
  induction l with
  | nil =>
    rw [List.nil_append, List.lookup_cons]
    have hb : (k' == k) = false := by
      simp only [beq_eq_false_iff_ne, ne_eq]
      exact h
    simp only [hb]
  | cons p ps ih =>
    obtain ⟨k'', v''⟩ := p
    rw [List.cons_append, List.lookup_cons, List.lookup_cons]
    cases hb : k' == k''
    · simp only [ih]
    · rfl

theorem lookup_add_attribute_self (t : Trace) (k : String) (v : AttrValue) :
    (t.add_attribute k v).attributes.lookup k = some v := by
  unfold Trace.add_attribute
  by_cases h : t.attributes.any (fun p => p.1 = k) = true
  · simpa [h] using lookup_map_overwrite t.attributes k v h
  · simp only [Bool.not_eq_true] at h
    simpa [h] using lookup_append_new t.attributes k v h

theorem lookup_add_attribute_ne (t : Trace) (k k' : String) (v : AttrValue)
    (h : k' ≠ k) :
    (t.add_attribute k v).attributes.lookup k' = t.attributes.lookup k' := by
  unfold Trace.add_attribute
  by_cases hany : t.attributes.any (fun p => p.1 = k) = true
  · simpa [hany] using lookup_map_overwrite_ne t.attributes k v k' h
  · simp only [Bool.not_eq_true] at hany
    simpa [hany] using lookup_append_ne t.attributes k v k' h

theorem add_attribute_ended_at (t : Trace) (k : String) (v : AttrValue) :
    (t.add_attribute k v).ended_at = t.ended_at := by
  unfold Trace.add_attribute
  split <;> rfl

theorem add_attribute_span_status (t : Trace) (k : String) (v : AttrValue) :
    (t.add_attribute k v).span_status = t.span_status := by
  unfold Trace.add_attribute
  split <;> rfl

/-! ## C1 -/

/-- **C1**: on every exit path of a `tracer.trace(name)` scope the
span's `ended_at` is set and the span is persisted; when the scope
exits with an exception, the status is ERROR, the exception's type,
message and traceback are recorded as span attributes, persistence
still occurs, and — the `__exit__` return value being falsy — the
exception is re-raised to the caller. -/
theorem C1_span_exit_complete_persist_reraise (t : Trace) (now : Nat)
    (exc : Option ExcInfo) (persisted : List Trace) :
    (ContextAwareSpanPersistor.exit__ t now exc persisted).finishedSpan.ended_at = some now ∧
    (ContextAwareSpanPersistor.exit__ t now exc persisted).persisted =
      persisted ++ [(ContextAwareSpanPersistor.exit__ t now exc persisted).finishedSpan] ∧
    ∀ e, exc = some e →
      (ContextAwareSpanPersistor.exit__ t now exc persisted).finishedSpan.span_status = "ERROR" ∧
      (ContextAwareSpanPersistor.exit__ t now exc persisted).finishedSpan.attributes.lookup
        "exception.type" = some (.str e.excType) ∧
      (ContextAwareSpanPersistor.exit__ t now exc persisted).finishedSpan.attributes.lookup
        "exception.message" = some (.str e.excMessage) ∧
      (ContextAwareSpanPersistor.exit__ t now exc persisted).finishedSpan.attributes.lookup
        "exception.traceback" = some (.str e.excTraceback) ∧
      withStatementReraises true
        (ContextAwareSpanPersistor.exit__ t now exc persisted).suppressesException = true := by
  unfold ContextAwareSpanPersistor.exit__
  cases exc with
  | none =>
    refine ⟨rfl, rfl, ?_⟩
    intro e he
    exact absurd he (by simp)
  | some e =>
    refine ⟨?_, rfl, ?_⟩
    · simp [add_attribute_ended_at]
    · intro e' he'
      obtain rfl : e = e' := by injection he'
      refine ⟨?_, ?_, ?_, ?_, rfl⟩
      · rw [add_attribute_span_status, add_attribute_span_status, add_attribute_span_status]
      · rw [lookup_add_attribute_ne _ _ _ _ (by decide),
          lookup_add_attribute_ne _ _ _ _ (by decide), lookup_add_attribute_self]
      · rw [lookup_add_attribute_ne _ _ _ _ (by decide), lookup_add_attribute_self]
      · rw [lookup_add_attribute_self]

def c1Trace : Trace :=
  { span_name := "op", trace_id := "tr-1", span_id := "sp-1", started_at := 3
    ended_at := none, span_status := "OK", attributes := [("k", .str "v")] }

def c1Exc : ExcInfo :=
  { excType := "ValueError", excMessage := "boom", excTraceback := "tb" }

/-- Witness for C1 at a concrete span exiting with an exception. -/
theorem C1_witness :
    (ContextAwareSpanPersistor.exit__ c1Trace 7 (some c1Exc) []).finishedSpan.ended_at = some 7 ∧
    (ContextAwareSpanPersistor.exit__ c1Trace 7 (some c1Exc) []).persisted =
      [] ++ [(ContextAwareSpanPersistor.exit__ c1Trace 7 (some c1Exc) []).finishedSpan] ∧
    ((ContextAwareSpanPersistor.exit__ c1Trace 7 (some c1Exc) []).finishedSpan.span_status = "ERROR" ∧
      (ContextAwareSpanPersistor.exit__ c1Trace 7 (some c1Exc) []).finishedSpan.attributes.lookup
        "exception.type" = some (.str c1Exc.excType) ∧
      (ContextAwareSpanPersistor.exit__ c1Trace 7 (some c1Exc) []).finishedSpan.attributes.lookup
        "exception.message" = some (.str c1Exc.excMessage) ∧
      (ContextAwareSpanPersistor.exit__ c1Trace 7 (some c1Exc) []).finishedSpan.attributes.lookup
        "exception.traceback" = some (.str c1Exc.excTraceback) ∧
      withStatementReraises true
        (ContextAwareSpanPersistor.exit__ c1Trace 7 (some c1Exc) []).suppressesException = true) :=
  have h := C1_span_exit_complete_persist_reraise c1Trace 7 (some c1Exc) []
  ⟨h.1, h.2.1, h.2.2 c1Exc rfl⟩

/-! ## C2 -/

/-- **C2**: a tool raising an exception never lets the exception escape
the dispatcher — `_invoke_tool` returns a structured tool result with
the original `toolUseId`, status `"error"`, and the fixed-shape body
`{"message": "Error invoking tool: <E>"}`; an unregistered tool name
takes the same path via `ValueError("Unknown tool: <name>")`. -/
theorem C2_tool_error_isolated (tools : ToolTable) (tu : ToolUse) (m : String)
    (h : toolOutcome tools tu = .raised m) :
    BedrockConverseAgent.invoke_tool tools tu =
      { toolUseId := tu.toolUseId, status := "error"
        body := .obj [("message", .str ("Error invoking tool: " ++ m))] } ∧
    (List.lookup tu.name tools = none →
      toolOutcome tools tu = .raised ("Unknown tool: " ++ tu.name)) := by
  constructor
  · unfold BedrockConverseAgent.invoke_tool
    rw [h]
    rfl
  · intro hl
    unfold toolOutcome
    rw [hl]

def c2Tools : ToolTable := [("boom", fun _ => .raised "division by zero")]

def c2Use : ToolUse := { toolUseId := "tu-1", name := "boom", input := .obj [] }

/-- Witness for C2 at a concrete raising tool. -/
theorem C2_witness :
    BedrockConverseAgent.invoke_tool c2Tools c2Use =
      { toolUseId := c2Use.toolUseId, status := "error"
        body := .obj [("message", .str ("Error invoking tool: " ++ "division by zero"))] } ∧
    (List.lookup c2Use.name c2Tools = none →
      toolOutcome c2Tools c2Use = .raised ("Unknown tool: " ++ c2Use.name)) :=
  C2_tool_error_isolated c2Tools c2Use "division by zero" rfl

/-! ## C10 -/

/-- **C10**: for a successful tool invocation the status is
`"success"`, and the result body is `{"toolResponse": v}` for a
non-mapping return value `v`, the mapping itself when it is non-empty,
and `{"message": "Success"}` when it is the empty mapping. -/
theorem C10_success_body_shape (tools : ToolTable) (tu : ToolUse) (v : Json)
    (h : toolOutcome tools tu = .ok v) :
    (BedrockConverseAgent.invoke_tool tools tu).toolUseId = tu.toolUseId ∧
    (BedrockConverseAgent.invoke_tool tools tu).status = "success" ∧
    (v.isDict = false →
      (BedrockConverseAgent.invoke_tool tools tu).body = .obj [("toolResponse", v)]) ∧
    (∀ fs, v = .obj fs → fs ≠ [] →
      (BedrockConverseAgent.invoke_tool tools tu).body = v) ∧
    (v = .obj [] →
      (BedrockConverseAgent.invoke_tool tools tu).body =
        .obj [("message", .str "Success")]) := by
  unfold BedrockConverseAgent.invoke_tool
  rw [h]
  refine ⟨rfl, rfl, ?_, ?_, ?_⟩
  · intro hv
    cases v <;> simp_all [Json.isDict, pyTruthyOpt, Json.pyTruthy]
  · rintro fs rfl hfs
    simp [Json.isDict, pyTruthyOpt, Json.pyTruthy, hfs]
  · rintro rfl
    simp [Json.isDict, pyTruthyOpt, Json.pyTruthy]

def c10Tools : ToolTable := [("empty", fun _ => .ok (.obj []))]

def c10Use : ToolUse := { toolUseId := "tu-2", name := "empty", input := .obj [] }

/-- Witness for C10 at a concrete tool returning the empty mapping. -/
theorem C10_witness :
    (BedrockConverseAgent.invoke_tool c10Tools c10Use).toolUseId = c10Use.toolUseId ∧
    (BedrockConverseAgent.invoke_tool c10Tools c10Use).status = "success" ∧
    ((Json.obj []).isDict = false →
      (BedrockConverseAgent.invoke_tool c10Tools c10Use).body =
        .obj [("toolResponse", .obj [])]) ∧
    (∀ fs, Json.obj [] = Json.obj fs → fs ≠ [] →
      (BedrockConverseAgent.invoke_tool c10Tools c10Use).body = .obj []) ∧
    (Json.obj [] = Json.obj [] →
      (BedrockConverseAgent.invoke_tool c10Tools c10Use).body =
        .obj [("message", .str "Success")]) :=
  C10_success_body_shape c10Tools c10Use (.obj []) rfl

/-! ## C8 -/

def c8SnapshotChild : ChildTracer := { cid := 0, isSnapshotCapable := true }

def c8PlainChild : ChildTracer := { cid := 1, isSnapshotCapable := false }

def c8SnapshotChild2 : ChildTracer := { cid := 2, isSnapshotCapable := true }

/-- **C8** (evaluation at the failing inputs): the claimed invariant —
`snapshot_enabled` iff some current child is snapshot-capable — is
broken by `remove_tracer` in both directions.  Removing the only
(snapshot-capable) child leaves `snapshot_enabled = true` with no
children, because the recomputation loop never runs on an empty list;
and removing a child while `[plain, snapshot-capable]` remain leaves
`snapshot_enabled = false`, because the loop clears the flag on the
plain child before reaching the capable one. -/
theorem C8_remove_tracer_stale_flag :
    TeeTracer.remove_tracer
        (TeeTracer.add_tracer TeeTracer.init c8SnapshotChild) c8SnapshotChild =
      .ok { tracers := [], snapshot_enabled := true } ∧
    TeeTracer.remove_tracer
        (TeeTracer.add_tracer
          (TeeTracer.add_tracer (TeeTracer.add_tracer TeeTracer.init c8PlainChild)
            c8SnapshotChild) c8SnapshotChild2) c8SnapshotChild2 =
      .ok { tracers := [c8PlainChild, c8SnapshotChild], snapshot_enabled := false } := by
  constructor <;> rfl

/-! ## C9 -/

/-- **C9**: calling `converse` or `converse_stream` with empty user
input raises `ValueError("Missing user input")` before any message is
appended: the conversation history is returned exactly as it was. -/
theorem C9_empty_input_preserves_history (parse : String → Json) (tools : ToolTable)
    (history : List Message) (responses : List ModelResponse)
    (cycles : List (List StreamEvent)) (maxIter maxIter' : Nat) :
    BedrockConverseAgent.converse tools "" history responses maxIter =
      { result := .error "Missing user input", history := history, toolDispatchCycles := 0 } ∧
    BedrockConverseAgent.converse_stream parse tools "" history cycles maxIter' =
      { result := .error "Missing user input", fragments := [], history := history
        toolDispatchCycles := 0 } := by
  constructor <;> rfl

/-! ## Sorting lemmas for `get_traces` -/

theorem perm_insertByStartedAt (t : Trace) (l : List Trace) :
    List.Perm (insertByStartedAt t l) (t :: l) := by
  induction l with
  | nil => exact .refl _
  | cons u us ih =>
    rw [insertByStartedAt]
    split
    · exact .refl _
    · exact (List.Perm.cons u ih).trans (List.Perm.swap t u us)

theorem perm_sortByStartedAt (l : List Trace) : List.Perm (sortByStartedAt l) l := by
  induction l with
  | nil => exact .refl _
  | cons t ts ih =>
    exact (perm_insertByStartedAt t (sortByStartedAt ts)).trans (List.Perm.cons t ih)

theorem pairwise_insertByStartedAt (t : Trace) (l : List Trace)
    (h : l.Pairwise (fun a b => a.started_at ≤ b.started_at)) :
    (insertByStartedAt t l).Pairwise (fun a b => a.started_at ≤ b.started_at) := by
  induction l with
  | nil => simp [insertByStartedAt]
  | cons u us ih =>
    rw [List.pairwise_cons] at h
    rw [insertByStartedAt]
    split
    case isTrue hle =>
      refine List.pairwise_cons.mpr ⟨?_, List.pairwise_cons.mpr h⟩
      intro b hb
      rcases List.mem_cons.mp hb with rfl | hb
      · exact hle
      · exact hle.trans (h.1 b hb)
    case isFalse hgt =>
      refine List.pairwise_cons.mpr ⟨?_, ih h.2⟩
      intro b hb
      have hb' := (perm_insertByStartedAt t us).mem_iff.mp hb
      rcases List.mem_cons.mp hb' with rfl | hb'
      · exact Nat.le_of_not_le hgt
      · exact h.1 b hb'

theorem pairwise_sortByStartedAt (l : List Trace) :
    (sortByStartedAt l).Pairwise (fun a b => a.started_at ≤ b.started_at) := by
  induction l with
  | nil => simp [sortByStartedAt]
  | cons t ts ih => exact pairwise_insertByStartedAt t (sortByStartedAt ts) ih

theorem get_traces_none_filter (memory : List Trace) (tid : Option String) :
    InMemoryTracer.get_traces memory tid none = sortByStartedAt memory := by
  unfold InMemoryTracer.get_traces
  exact List.filter_eq_self.mpr (fun _ _ => rfl)

/-! ## C4 -/

def c4SpanA : Trace :=
  { span_name := "sa", trace_id := "a", span_id := "1", started_at := 0
    ended_at := none, span_status := "OK", attributes := [] }

def c4SpanB : Trace :=
  { span_name := "sb", trace_id := "b", span_id := "2", started_at := 1
    ended_at := none, span_status := "OK", attributes := [] }

/-- **C4** (counterexample): on the in-memory backend,
`get_traces(trace_id="a")` over a buffer holding spans of trace ids
"a" and "b" returns both spans — the `trace_id` argument is ignored,
so the result is not "exactly the spans whose trace_id equals X"; and
a call with neither selector returns normally instead of being
rejected. -/
theorem C4_counterexample :
    InMemoryTracer.get_traces [c4SpanA, c4SpanB] (some "a") none = [c4SpanA, c4SpanB] ∧
    c4SpanB.trace_id ≠ "a" ∧
    InMemoryTracer.get_traces [c4SpanA, c4SpanB] none none = [c4SpanA, c4SpanB] := by
  exact ⟨rfl, by decide, rfl⟩

/-- **C4** (amended): `InMemoryTracer.get_traces` requires no
selector and ignores `trace_id` entirely: for any two `trace_id`
arguments the result is identical; with no attribute filter it returns
every persisted span (a permutation of the buffer); and the result is
always ordered by start time. -/
theorem C4_get_traces_amended (memory : List Trace) (tid tid' : Option String)
    (f : Option (List (String × AttrValue))) :
    InMemoryTracer.get_traces memory tid f = InMemoryTracer.get_traces memory tid' f ∧
    List.Perm (InMemoryTracer.get_traces memory tid none) memory ∧
    (InMemoryTracer.get_traces memory tid f).Pairwise
      (fun a b => a.started_at ≤ b.started_at) := by
  refine ⟨rfl, ?_, ?_⟩
  · rw [get_traces_none_filter]
    exact perm_sortByStartedAt memory
  · exact List.Pairwise.filter _ (pairwise_sortByStartedAt memory)

/-! ## C5 -/

theorem attrEntryMatches_iff (t : Trace) (kv : String × AttrValue) :
    attrEntryMatches t kv = true ↔ t.attributes.lookup kv.1 = some kv.2 := by
  unfold attrEntryMatches
  cases h : t.attributes.lookup kv.1 with
  | none => simp
  | some v => simp [decide_eq_true_eq]

/-- **C5**: an attribute filter is a conjunction of exact-match
equalities: a span is in the result iff it is in the buffer and every
filter entry's key is present with exactly the filter's value.  In
particular a filter value of explicit null (`AttrValue.null`) matches
only spans carrying the key with a null value — a span missing the key
has `lookup = none ≠ some null` and never matches, so "attribute
absent" and "attribute present with value null" are distinct match
states. -/
theorem C5_attribute_filter_semantics (memory : List Trace)
    (f : List (String × AttrValue)) (t : Trace) :
    t ∈ InMemoryTracer.get_traces memory none (some f) ↔
      t ∈ memory ∧ ∀ kv ∈ f, t.attributes.lookup kv.1 = some kv.2 := by
  unfold InMemoryTracer.get_traces
  rw [List.mem_filter, (perm_sortByStartedAt memory).mem_iff]
  refine and_congr_right fun _ => ?_
  cases f with
  | nil => simp
  | cons kv f =>
    simp only [Bool.or_eq_true, List.all_eq_true, decide_eq_true_eq]
    constructor
    · rintro (h | h)
      · simp at h
      · intro x hx
        exact (attrEntryMatches_iff t x).mp (h x hx)
    · intro h
      refine Or.inr fun x hx => (attrEntryMatches_iff t x).mpr (h x hx)

/-! ## C3 -/

theorem converseLoop_dispatch_le (tools : ToolTable) :
    ∀ (fuel : Nat) (rs : List ModelResponse) (texts : List String)
      (history : List Message) (d : Nat),
      (BedrockConverseAgent.converseLoop tools rs fuel texts history d).toolDispatchCycles ≤
        d + fuel := by
  intro fuel
  induction fuel with
  | zero =>
    intro rs texts history d
    cases rs <;> simp [BedrockConverseAgent.converseLoop]
  | succ fuel ih =>
    intro rs texts history d
    cases rs with
    | nil => simp [BedrockConverseAgent.converseLoop]
    | cons r rs' =>
      rw [BedrockConverseAgent.converseLoop]
      by_cases h1 : r.stopReason = "tool_use"
      · simp only [h1, if_pos rfl]
        calc (BedrockConverseAgent.converseLoop tools rs' fuel _ _ (d + 1)).toolDispatchCycles ≤
            (d + 1) + fuel := ih rs' _ _ (d + 1)
          _ = d + (fuel + 1) := by omega
      · by_cases h2 : r.stopReason = "end_turn" <;> simp [h1, h2]

theorem converseLoop_all_tool_use (tools : ToolTable) :
    ∀ (fuel : Nat) (rs : List ModelResponse) (texts : List String)
      (history : List Message) (d : Nat),
      (∀ r ∈ rs, r.stopReason = "tool_use") → fuel ≤ rs.length →
      (BedrockConverseAgent.converseLoop tools rs fuel texts history d).result =
        .error "Too many successive tool invocations:\x7bself.max_converse_iterations\x7d " ∧
      (BedrockConverseAgent.converseLoop tools rs fuel texts history d).toolDispatchCycles =
        d + fuel := by
  intro fuel
  induction fuel with
  | zero =>
    intro rs texts history d _ _
    cases rs <;> simp [BedrockConverseAgent.converseLoop]
  | succ fuel ih =>
    intro rs texts history d hall hlen
    cases rs with
    | nil => simp at hlen
    | cons r rs' =>
      have hr : r.stopReason = "tool_use" := hall r (List.mem_cons_self r rs')
      rw [BedrockConverseAgent.converseLoop]
      rw [if_pos hr]
      have hrec := ih rs' (texts ++ textBlocks r.content)
        ((history ++ [{ role := "assistant", content := r.content }]) ++
          [toolResultMessage (BedrockConverseAgent.invoke_tools tools (toolUseBlocks r.content))])
        (d + 1) (fun x hx => hall x (List.mem_cons_of_mem r hx))
        (Nat.lt_succ_iff.mp (Nat.lt_of_succ_le (by simpa using hlen)))
      refine ⟨hrec.1, ?_⟩
      rw [hrec.2]
      omega

def c3ToolUseResponse : ModelResponse :=
  { content := [.toolUse { toolUseId := "t1", name := "nope", input := .obj [] }]
    stopReason := "tool_use" }

/-- **C3** (counterexample): with `max_successive_tool_invocations = 0`
(loop bound 1) and a model response with stop-reason `tool_use`, the
call still dispatches one tool-use cycle — exceeding the configured
maximum of 0 — before raising the too-many-invocations error, so "never
executes more than M successive tool-use cycles" fails at M = 0. -/
theorem C3_counterexample :
    BedrockConverseAgent.initMaxConverseIterations 0 = .ok 1 ∧
    (BedrockConverseAgent.converse [] "hi" [] [c3ToolUseResponse] 1).toolDispatchCycles = 1 ∧
    (BedrockConverseAgent.converse [] "hi" [] [c3ToolUseResponse] 1).result =
      .error "Too many successive tool invocations:\x7bself.max_converse_iterations\x7d " :=
  ⟨rfl, rfl, rfl⟩

/-! ## C6 -/

/-- The `contentBlockStart` payload of a tool-use block: toolUseId and
name, no input yet. -/
def toolUseStartBlock (id name : String) : RawBlock :=
  .toolUse { toolUseId := some id, name := some name, input := none }

/-- The delta events carrying the input fragments of the block at
index 0, in arrival order. -/
def inputDeltaEvents (fs : List String) : List StreamEvent :=
  fs.map (fun f => .contentBlockDelta { contentBlockIndex := 0, delta := .toolUseInput f })

/-- The raw input accumulated by `update_content_block` over a fragment
sequence. -/
def foldInput : Option String → List String → Option String
  | inp, [] => inp
  | inp, f :: fs => foldInput (some (inp.getD "" ++ f)) fs

theorem foldInput_concat (fs : List String) :
    ∀ inp : Option String, fs ≠ [] →
      foldInput inp fs = some (inp.getD "" ++ concatAll fs) := by
  induction fs with
  | nil => intro inp h; exact absurd rfl h
  | cons f fs ih =>
    intro inp _
    rw [foldInput]
    cases fs with
    | nil => simp [foldInput, concatAll]
    | cons g gs =>
      rw [ih _ (by simp)]
      simp [concatAll, String.append_assoc]

theorem runStream_inputDeltas (fs : List String) :
    ∀ (st : CycleState) (tur : ToolUseRaw), st.content_blocks = [.toolUse tur] →
      runStreamCycleAux st (inputDeltaEvents fs) =
        ({ st with content_blocks := [.toolUse { tur with input := foldInput tur.input fs }] },
          none) := by
  induction fs with
  | nil =>
    intro st tur h
    rw [inputDeltaEvents, List.map_nil, runStreamCycleAux, foldInput, ← h]
  | cons f fs ih =>
    intro st tur h
    rw [inputDeltaEvents, List.map_cons, runStreamCycleAux]
    have hstep : processStreamEvent st
        (.contentBlockDelta { contentBlockIndex := 0, delta := .toolUseInput f }) =
        .ok { st with
          content_blocks := [.toolUse { tur with input := some (tur.input.getD "" ++ f) }]
          fragments := st.fragments ++ [] } := by
      rw [processStreamEvent, h]
      rfl
    simp only [hstep]
    have h2 := ih { st with
        content_blocks := [.toolUse { tur with input := some (tur.input.getD "" ++ f) }]
        fragments := st.fragments ++ [] }
      { tur with input := some (tur.input.getD "" ++ f) } rfl
    rw [inputDeltaEvents] at h2
    rw [h2]
    simp [foldInput]

/-- The event stream of one streamed tool-use block: its start event
followed by its input fragments. -/
def c6Events (id name : String) (fs : List String) : List StreamEvent :=
  .contentBlockStart (toolUseStartBlock id name) :: inputDeltaEvents fs

/-- **C6**: a tool-use block's input fragments are concatenated as raw
text in arrival order — after the event loop the block holds exactly
the string concatenation of the fragments, still unparsed — and the
post-stream conversion applies the JSON parse once, to the full
concatenation, so the reconstructed toolUse input equals the JSON
object parsed from it. -/
theorem C6_tool_input_raw_concat_then_parse (id name : String) (fs : List String)
    (parse : String → Json) (h : concatAll fs ≠ "") :
    runStreamCycleAux initCycleState (c6Events id name fs) =
      ({ initCycleState with content_blocks :=
          [.toolUse { toolUseId := some id, name := some name
                      input := some (concatAll fs) }] }, none) ∧
    finalizeBlock parse
        (.toolUse { toolUseId := some id, name := some name, input := some (concatAll fs) }) =
      .ok (.toolUse { toolUseId := id, name := name, input := parse (concatAll fs) }) := by
  have hfs : fs ≠ [] := by
    intro hnil
    rw [hnil] at h
    exact h rfl
  constructor
  · rw [c6Events, runStreamCycleAux]
    have hstep : processStreamEvent initCycleState
        (.contentBlockStart (toolUseStartBlock id name)) =
        .ok { initCycleState with content_blocks := [toolUseStartBlock id name] } := by
      simp [processStreamEvent, initCycleState]
    simp only [hstep]
    rw [runStream_inputDeltas fs
      { initCycleState with content_blocks := [toolUseStartBlock id name] }
      { toolUseId := some id, name := some name, input := none } rfl]
    rw [foldInput_concat fs _ hfs]
    simp [initCycleState, toolUseStartBlock]
  · rw [finalizeBlock]
    simp [h]

def c6Fragments : List String := ["[1, ", "2]"]

/-- Witness for C6 at a concrete fragmented JSON input. -/
theorem C6_witness :
    runStreamCycleAux initCycleState (c6Events "tu-9" "lookup_dish" c6Fragments) =
      ({ initCycleState with content_blocks :=
          [.toolUse { toolUseId := some "tu-9", name := some "lookup_dish"
                      input := some (concatAll c6Fragments) }] }, none) ∧
    finalizeBlock Json.str
        (.toolUse { toolUseId := some "tu-9", name := some "lookup_dish"
                    input := some (concatAll c6Fragments) }) =
      .ok (.toolUse { toolUseId := "tu-9", name := "lookup_dish"
                      input := Json.str (concatAll c6Fragments) }) :=
  C6_tool_input_raw_concat_then_parse "tu-9" "lookup_dish" c6Fragments Json.str (by decide)

/-! ## C7 -/

/-- The fragments yielded across a sequence of cycles, in order. -/
def cyclesFragments : List (List StreamEvent) → List String
  | [] => []
  | ev :: evs => cycleFragments ev ++ cyclesFragments evs

/-- The text block contents collected across a sequence of model
responses, in order (what `converse` accumulates into `texts`). -/
def responsesTexts : List ModelResponse → List String
  | [] => []
  | r :: rs => textBlocks r.content ++ responsesTexts rs

/-- A response list ending a turn: every response but the last has
stop-reason `tool_use`, and the last has `end_turn`. -/
def StopsWithEndTurn : List ModelResponse → Prop
  | [] => False
  | [r] => r.stopReason = "end_turn"
  | r :: rs => r.stopReason = "tool_use" ∧ StopsWithEndTurn rs

/-- One streamed cycle matching one non-streaming response: the cycle
assembles to exactly that response, the concatenation of the cycle's
yielded fragments is the concatenation of the response's text blocks
followed by the `"\n"` separator, and the response carries exactly one
text block. -/
def CycleMatches (parse : String → Json) (ev : List StreamEvent) (r : ModelResponse) : Prop :=
  assembledResponse parse ev = .ok r ∧
  concatAll (cycleFragments ev) = concatAll (textBlocks r.content) ++ "\n" ∧
  (textBlocks r.content).length = 1

theorem concatAll_append (l₁ l₂ : List String) :
    concatAll (l₁ ++ l₂) = concatAll l₁ ++ concatAll l₂ := by
  induction l₁ with
  | nil => simp [concatAll]
  | cons s l ih => simp [concatAll, ih, String.append_assoc]

theorem joinNewline_cons_ne (t : String) (l : List String) (h : l ≠ []) :
    joinNewline (t :: l) = t ++ "\n" ++ joinNewline l := by
  cases l with
  | nil => exact absurd rfl h
  | cons u us => rfl

theorem assembled_ok_destruct (parse : String → Json) (ev : List StreamEvent)
    (r : ModelResponse) (h : assembledResponse parse ev = .ok r) :
    ∃ st m, runStreamCycleAux initCycleState ev = (st, none) ∧
      finishStreamCycle parse st = .ok (m, r.content, r.stopReason) := by
  unfold assembledResponse at h
  rcases hq : runStreamCycleAux initCycleState ev with ⟨st, err⟩
  rw [hq] at h
  cases err with
  | some e => simp at h
  | none =>
    dsimp only at h
    cases hf : finishStreamCycle parse st with
    | error e => rw [hf] at h; simp at h
    | ok p =>
      rw [hf] at h
      obtain ⟨m, content, stop⟩ := p
      dsimp only at h
      simp only [Except.ok.injEq] at h
      refine ⟨st, m, rfl, ?_⟩
      rw [← h]
      exact hf

theorem converseLoop_ok_text (tools : ToolTable) :
    ∀ (rs : List ModelResponse) (fuel : Nat) (texts : List String)
      (history : List Message) (d : Nat),
      StopsWithEndTurn rs → rs.length ≤ fuel →
      (BedrockConverseAgent.converseLoop tools rs fuel texts history d).result =
        .ok (joinNewline (texts ++ responsesTexts rs)) := by
  intro rs
  induction rs with
  | nil => intro fuel texts history d h _; exact absurd h (by simp [StopsWithEndTurn])
  | cons r rs' ih =>
    intro fuel texts history d hstops hlen
    cases fuel with
    | zero => simp at hlen
    | succ fuel =>
      rw [BedrockConverseAgent.converseLoop]
      cases rs' with
      | nil =>
        have hr : r.stopReason = "end_turn" := hstops
        rw [if_neg (by rw [hr]; decide), if_pos hr]
        simp [responsesTexts]
      | cons r2 rs'' =>
        have hr : r.stopReason = "tool_use" := hstops.1
        rw [if_pos hr]
        rw [ih fuel (texts ++ textBlocks r.content) _ (d + 1) hstops.2
          (by simpa using Nat.succ_le_succ_iff.mp hlen)]
        simp only [responsesTexts, List.append_assoc]

theorem streamLoop_ok_frags (parse : String → Json) (tools : ToolTable) :
    ∀ (cs : List (List StreamEvent)) (rs : List ModelResponse),
      List.Forall₂ (CycleMatches parse) cs rs → StopsWithEndTurn rs →
      ∀ (fuel : Nat), cs.length ≤ fuel →
      ∀ (frags : List String) (history : List Message) (d : Nat),
        (BedrockConverseAgent.converseStreamLoop parse tools cs fuel frags history d).result =
          .ok () ∧
        (BedrockConverseAgent.converseStreamLoop parse tools cs fuel frags history d).fragments =
          frags ++ cyclesFragments cs := by
  intro cs
  induction cs with
  | nil =>
    intro rs hmatch hstops _ _ _ _ _
    cases hmatch
    exact absurd hstops (by simp [StopsWithEndTurn])
  | cons ev cs' ih =>
    intro rs hmatch hstops fuel hlen frags history d
    rcases hmatch with _ | ⟨hrel, htail⟩
    rename_i r rs'
    cases fuel with
    | zero => simp at hlen
    | succ fuel =>
      obtain ⟨st, m, hq, hf⟩ := assembled_ok_destruct parse ev r hrel.1
      rw [BedrockConverseAgent.converseStreamLoop]
      simp only [hq, hf]
      have hfrag : cycleFragments ev = st.fragments := by
        rw [cycleFragments, hq]
      cases rs' with
      | nil =>
        cases htail
        have hr : r.stopReason = "end_turn" := hstops
        rw [if_neg (by rw [hr]; decide), if_pos hr]
        constructor
        · rfl
        · rw [cyclesFragments, cyclesFragments, hfrag, List.append_nil]
      | cons r2 rs'' =>
        have hr : r.stopReason = "tool_use" := hstops.1
        rw [if_pos hr]
        have hrec := ih (r2 :: rs'') htail hstops.2 fuel
          (by simpa using Nat.succ_le_succ_iff.mp hlen)
          (frags ++ st.fragments)
          ((history ++ [m]) ++
            [toolResultMessage (BedrockConverseAgent.invoke_tools tools
              (toolUseBlocks r.content))])
          (d + 1)
        refine ⟨hrec.1, ?_⟩
        rw [hrec.2, cyclesFragments, hfrag, List.append_assoc]

theorem concat_cyclesFragments (parse : String → Json) :
    ∀ (cs : List (List StreamEvent)) (rs : List ModelResponse),
      List.Forall₂ (CycleMatches parse) cs rs → StopsWithEndTurn rs →
      concatAll (cyclesFragments cs) = joinNewline (responsesTexts rs) ++ "\n" := by
  intro cs
  induction cs with
  | nil =>
    intro rs hmatch hstops
    cases hmatch
    exact absurd hstops (by simp [StopsWithEndTurn])
  | cons ev cs' ih =>
    intro rs hmatch hstops
    rcases hmatch with _ | ⟨hrel, htail⟩
    rename_i r rs'
    obtain ⟨T, hT⟩ := List.length_eq_one.mp hrel.2.2
    cases rs' with
    | nil =>
      cases htail
      rw [cyclesFragments, cyclesFragments, List.append_nil, hrel.2.1, hT]
      rw [responsesTexts, responsesTexts, List.append_nil, hT]
      simp [concatAll, joinNewline]
    | cons r2 rs'' =>
      rcases htail with _ | ⟨hrel2, htail2⟩
      rename_i ev2 cs''
      obtain ⟨T2, hT2⟩ := List.length_eq_one.mp hrel2.2.2
      have hne : responsesTexts (r2 :: rs'') ≠ [] := by
        rw [responsesTexts, hT2]
        simp
      rw [cyclesFragments, concatAll_append, hrel.2.1, hT]
      rw [ih (r2 :: rs'') (List.Forall₂.cons hrel2 htail2) hstops.2]
      rw [show responsesTexts (r :: r2 :: rs'') =
        textBlocks r.content ++ responsesTexts (r2 :: rs'') from rfl, hT]
      rw [show (([T] : List String) ++ responsesTexts (r2 :: rs'')) =
        T :: responsesTexts (r2 :: rs'') from rfl]
      rw [joinNewline_cons_ne T _ hne]
      simp [concatAll, String.append_assoc]

/-- Cross-cycle lifting lemma: whenever every cycle stands in the
`CycleMatches` relation to the response `converse` receives, the two
loops agree up to the trailing separator.  The per-cycle relation
itself is derived, for canonically ordered streams, by
`cycleMatches_messageEvents` below. -/
theorem roundTrip_of_cycleMatches (parse : String → Json) (tools : ToolTable)
    (cs : List (List StreamEvent)) (rs : List ModelResponse)
    (hmatch : List.Forall₂ (CycleMatches parse) cs rs)
    (hstops : StopsWithEndTurn rs)
    (fuel : Nat) (hfuel : cs.length ≤ fuel)
    (user_input : String) (hu : user_input ≠ "") (history : List Message) :
    (BedrockConverseAgent.converse tools user_input history rs fuel).result =
      .ok (joinNewline (responsesTexts rs)) ∧
    (BedrockConverseAgent.converse_stream parse tools user_input history cs fuel).result =
      .ok () ∧
    concatAll
        (BedrockConverseAgent.converse_stream parse tools user_input history cs fuel).fragments =
      joinNewline (responsesTexts rs) ++ "\n" := by
  have hlenrs : rs.length ≤ fuel := by
    rw [← hmatch.length_eq]
    exact hfuel
  have hstream := streamLoop_ok_frags parse tools cs rs hmatch hstops fuel hfuel
    [] (history ++ [userMessage user_input]) 0
  refine ⟨?_, ?_, ?_⟩
  · rw [BedrockConverseAgent.converse, if_neg hu]
    rw [converseLoop_ok_text tools rs fuel [] (history ++ [userMessage user_input]) 0
      hstops hlenrs]
    rw [List.nil_append]
  · rw [BedrockConverseAgent.converse_stream, if_neg hu]
    exact hstream.1
  · rw [BedrockConverseAgent.converse_stream, if_neg hu]
    rw [hstream.2, List.nil_append]
    exact concat_cyclesFragments parse cs rs hmatch hstops

/-- The stand-in for `json.loads` in concrete C7 runs. -/
def parse0 : String → Json := fun _ => Json.obj []

def c7Events : List StreamEvent :=
  [.messageStart "assistant",
   .contentBlockDelta { contentBlockIndex := 0, delta := .text "hi" },
   .messageStop "end_turn",
   .metadata]

def c7Response : ModelResponse := { content := [.text "hi"], stopReason := "end_turn" }

def c7TwoBlockEvents : List StreamEvent :=
  [.messageStart "assistant",
   .contentBlockDelta { contentBlockIndex := 0, delta := .text "a" },
   .contentBlockDelta { contentBlockIndex := 1, delta := .text "b" },
   .messageStop "end_turn",
   .metadata]

def c7TwoBlockResponse : ModelResponse :=
  { content := [.text "a", .text "b"], stopReason := "end_turn" }

/-- **C7** (counterexample): for a single-cycle stream assembling to
the message with text "hi" (stop reason end_turn), `converse` returns
"hi" but `converse_stream` yields the fragments ["hi", "\n"] — the
separator emitted at message-stop is also emitted after the final
message, so the streamed concatenation "hi\n" differs from the
non-streaming text "hi", refuting the claimed equality; and for a
message carrying two text blocks "a" and "b", the streamed
concatenation "ab\n" differs from the non-streaming text "a\nb" even
after appending the trailing separator, forcing the amended claim's
restriction to single-text-block messages. -/
theorem C7_counterexample :
    assembledResponse parse0 c7Events = .ok c7Response ∧
    (BedrockConverseAgent.converse [] "go" [] [c7Response] 1).result = .ok "hi" ∧
    (BedrockConverseAgent.converse_stream parse0 [] "go" [] [c7Events] 1).fragments =
      ["hi", "\n"] ∧
    concatAll ["hi", "\n"] ≠ "hi" ∧
    assembledResponse parse0 c7TwoBlockEvents = .ok c7TwoBlockResponse ∧
    (BedrockConverseAgent.converse [] "go" [] [c7TwoBlockResponse] 1).result = .ok "a\nb" ∧
    (BedrockConverseAgent.converse_stream parse0 [] "go" [] [c7TwoBlockEvents] 1).fragments =
      ["a", "b", "\n"] ∧
    concatAll ["a", "b", "\n"] ≠ "a\nb" ∧
    concatAll ["a", "b", "\n"] ≠ "a\nb" ++ "\n" :=
  ⟨rfl, rfl, rfl, by decide, rfl, rfl, rfl, by decide, by decide⟩

/-! ### Canonical streamed messages

The Converse stream delivers content blocks sequentially, addressed by
consecutive zero-based indices: a text block arrives as its text
deltas (the first delta creating the block), a tool-use block as its
start event followed by its input deltas; the message ends with one
messageStop and one metadata event.  `messageEvents` generates exactly
these sequences, and the lemmas below compute the source event loop
over them, so the fragment/text correspondence of C7 is derived rather
than assumed. -/

/-- One content block of a canonically streamed message, reduced to
the ordered fragment lists the protocol delivers for it. -/
inductive StreamedBlock where
  | textBlock (frags : List String)
  | toolBlock (toolUseId name : String) (frags : List String)
deriving DecidableEq, Repr

/-- The fragments of a streamed block. -/
def fragsOf : StreamedBlock → List String
  | .textBlock frags => frags
  | .toolBlock _ _ frags => frags

/-- The raw content block the event loop accumulates for a streamed
block (its fragments concatenated, still unparsed). -/
def rawOf : StreamedBlock → RawBlock
  | .textBlock frags => .text (concatAll frags)
  | .toolBlock id name frags =>
    .toolUse { toolUseId := some id, name := some name, input := some (concatAll frags) }

/-- The finalized content block after the post-loop parse. -/
def finalOf (parse : String → Json) : StreamedBlock → MsgContent
  | .textBlock frags => .text (concatAll frags)
  | .toolBlock id name frags =>
    .toolUse { toolUseId := id, name := name
               input := if concatAll frags = "" then .obj [] else parse (concatAll frags) }

/-- The user-facing fragments one streamed block yields (its non-empty
text deltas; tool input deltas yield nothing). -/
def blockTextFrags : StreamedBlock → List String
  | .textBlock frags => frags.filter (fun f => f ≠ "")
  | .toolBlock _ _ _ => []

/-- The user-facing fragments of a block sequence, in order. -/
def blocksTextFrags : List StreamedBlock → List String
  | [] => []
  | b :: bs => blockTextFrags b ++ blocksTextFrags bs

/-- The text contents of the text blocks of a block sequence. -/
def streamedTextContents : List StreamedBlock → List String
  | [] => []
  | .textBlock frags :: bs => concatAll frags :: streamedTextContents bs
  | _ :: bs => streamedTextContents bs

/-- The events delivering one block at index `i`. -/
def blockEvents (i : Nat) : StreamedBlock → List StreamEvent
  | .textBlock frags =>
    frags.map (fun f => .contentBlockDelta { contentBlockIndex := i, delta := .text f })
  | .toolBlock id name frags =>
    .contentBlockStart (toolUseStartBlock id name) ::
      frags.map (fun f => .contentBlockDelta { contentBlockIndex := i, delta := .toolUseInput f })

/-- The events delivering a block sequence starting at index `i`. -/
def blocksEvents (i : Nat) : List StreamedBlock → List StreamEvent
  | [] => []
  | b :: bs => blockEvents i b ++ blocksEvents (i + 1) bs

/-- One canonically streamed assistant message. -/
structure StreamedMessage where
  role : String
  blocks : List StreamedBlock
  stopReason : String

/-- The full event sequence of one streamed message. -/
def messageEvents (m : StreamedMessage) : List StreamEvent :=
  .messageStart m.role :: (blocksEvents 0 m.blocks ++ [.messageStop m.stopReason, .metadata])

/-- The non-streaming response reconstructing the same message. -/
def responseOf (parse : String → Json) (m : StreamedMessage) : ModelResponse :=
  { content := m.blocks.map (finalOf parse), stopReason := m.stopReason }

theorem getD_append_singleton (bs : List RawBlock) (x d : RawBlock) :
    (bs ++ [x]).getD bs.length d = x := by
  induction bs with
  | nil => rfl
  | cons b bs ih => simp

theorem set_append_singleton (bs : List RawBlock) (x y : RawBlock) :
    (bs ++ [x]).set bs.length y = bs ++ [y] := by
  induction bs with
  | nil => rfl
  | cons b bs ih => simp

theorem update_append_new (bs : List RawBlock) (d : Delta) :
    update_content_block bs { contentBlockIndex := bs.length, delta := d } =
      .ok (bs ++ [deltaAsNewBlock d]) := by
  rw [update_content_block, if_pos (by simp)]

theorem update_last_text (bs : List RawBlock) (t s : String) :
    update_content_block (bs ++ [.text t])
      { contentBlockIndex := bs.length, delta := .text s } =
      .ok (bs ++ [.text (t ++ s)]) := by
  rw [update_content_block, if_neg (by simp)]
  simp only [getD_append_singleton, set_append_singleton]

theorem update_last_toolUse (bs : List RawBlock) (tur : ToolUseRaw) (s : String) :
    update_content_block (bs ++ [.toolUse tur])
      { contentBlockIndex := bs.length, delta := .toolUseInput s } =
      .ok (bs ++ [.toolUse { tur with input := some (tur.input.getD "" ++ s) }]) := by
  rw [update_content_block, if_neg (by simp)]
  simp only [getD_append_singleton, set_append_singleton]

theorem runAux_append (l₁ : List StreamEvent) :
    ∀ (l₂ : List StreamEvent) (st : CycleState),
      runStreamCycleAux st (l₁ ++ l₂) =
        match runStreamCycleAux st l₁ with
        | (st₁, none) => runStreamCycleAux st₁ l₂
        | (st₁, some e) => (st₁, some e) := by
  induction l₁ with
  | nil => intro l₂ st; rfl
  | cons e es ih =>
    intro l₂ st
    show (match processStreamEvent st e with
      | .ok st' => runStreamCycleAux st' (es ++ l₂)
      | .error msg => (st, some msg)) =
      match (match processStreamEvent st e with
        | .ok st' => runStreamCycleAux st' es
        | .error msg => (st, some msg)) with
      | (st₁, none) => runStreamCycleAux st₁ l₂
      | (st₁, some e) => (st₁, some e)
    cases h : processStreamEvent st e with
    | ok st' =>
      simp only [h]
      exact ih l₂ st'
    | error msg => simp only [h]

theorem runAux_textDeltas (fs : List String) :
    ∀ (st : CycleState) (bs : List RawBlock) (t : String),
      st.content_blocks = bs ++ [.text t] →
      runStreamCycleAux st
        (fs.map (fun f =>
          .contentBlockDelta { contentBlockIndex := bs.length, delta := .text f })) =
      ({ st with
          content_blocks := bs ++ [.text (t ++ concatAll fs)],
          fragments := st.fragments ++ fs.filter (fun f => f ≠ "") }, none) := by
  induction fs with
  | nil =>
    intro st bs t h
    simp only [List.map_nil, runStreamCycleAux, List.filter_nil, List.append_nil]
    rw [show concatAll [] = "" from rfl, show t ++ "" = t from by simp, ← h]
  | cons f fs ih =>
    intro st bs t h
    rw [List.map_cons, runStreamCycleAux]
    have hstep : processStreamEvent st
        (.contentBlockDelta { contentBlockIndex := bs.length, delta := .text f }) =
        .ok { st with
          content_blocks := bs ++ [.text (t ++ f)]
          fragments := st.fragments ++ (if f ≠ "" then [f] else []) } := by
      rw [processStreamEvent, h, update_last_text]
      rfl
    simp only [hstep]
    rw [ih _ bs (t ++ f) rfl]
    by_cases hf : f = ""
    · subst hf
      simp [List.filter_cons, concatAll, String.append_assoc]
    · simp [List.filter_cons, hf, concatAll, String.append_assoc]

theorem runAux_toolDeltas (fs : List String) :
    ∀ (st : CycleState) (bs : List RawBlock) (tur : ToolUseRaw),
      st.content_blocks = bs ++ [.toolUse tur] →
      runStreamCycleAux st
        (fs.map (fun f =>
          .contentBlockDelta { contentBlockIndex := bs.length, delta := .toolUseInput f })) =
      ({ st with content_blocks :=
          bs ++ [.toolUse { tur with input := foldInput tur.input fs }] }, none) := by
  induction fs with
  | nil =>
    intro st bs tur h
    rw [List.map_nil, runStreamCycleAux, foldInput, ← h]
  | cons f fs ih =>
    intro st bs tur h
    rw [List.map_cons, runStreamCycleAux]
    have hstep : processStreamEvent st
        (.contentBlockDelta { contentBlockIndex := bs.length, delta := .toolUseInput f }) =
        .ok { st with
          content_blocks := bs ++ [.toolUse { tur with input := some (tur.input.getD "" ++ f) }]
          fragments := st.fragments ++ [] } := by
      rw [processStreamEvent, h, update_last_toolUse]
      rfl
    simp only [hstep]
    rw [ih _ bs { tur with input := some (tur.input.getD "" ++ f) } rfl]
    simp [foldInput]

theorem runAux_blockEvents (b : StreamedBlock) (hwf : fragsOf b ≠ []) :
    ∀ (st : CycleState) (bs : List RawBlock), st.content_blocks = bs →
      runStreamCycleAux st (blockEvents bs.length b) =
        ({ st with
            content_blocks := bs ++ [rawOf b],
            fragments := st.fragments ++ blockTextFrags b }, none) := by
  cases b with
  | textBlock frags =>
    cases frags with
    | nil => exact absurd rfl hwf
    | cons f fs =>
      intro st bs h
      rw [blockEvents, List.map_cons, runStreamCycleAux]
      have hstep : processStreamEvent st
          (.contentBlockDelta { contentBlockIndex := bs.length, delta := .text f }) =
          .ok { st with
            content_blocks := bs ++ [.text f]
            fragments := st.fragments ++ (if f ≠ "" then [f] else []) } := by
        rw [processStreamEvent, h, update_append_new]
        rfl
      simp only [hstep]
      rw [runAux_textDeltas fs _ bs f rfl]
      by_cases hf : f = ""
      · subst hf
        simp [rawOf, blockTextFrags, List.filter_cons, concatAll]
      · simp [rawOf, blockTextFrags, List.filter_cons, hf, concatAll]
  | toolBlock id name frags =>
    intro st bs h
    rw [blockEvents, runStreamCycleAux]
    have hstep : processStreamEvent st (.contentBlockStart (toolUseStartBlock id name)) =
        .ok { st with content_blocks := bs ++ [toolUseStartBlock id name] } := by
      rw [processStreamEvent, h]
    simp only [hstep]
    rw [runAux_toolDeltas frags _ bs
      { toolUseId := some id, name := some name, input := none } rfl]
    rw [foldInput_concat frags _ hwf]
    simp [rawOf, blockTextFrags, toolUseStartBlock]

theorem runAux_blocksEvents (blocks : List StreamedBlock) :
    ∀ (st : CycleState) (bs : List RawBlock),
      (∀ b ∈ blocks, fragsOf b ≠ []) → st.content_blocks = bs →
      runStreamCycleAux st (blocksEvents bs.length blocks) =
        ({ st with
            content_blocks := bs ++ blocks.map rawOf,
            fragments := st.fragments ++ blocksTextFrags blocks }, none) := by
  induction blocks with
  | nil =>
    intro st bs _ h
    rw [blocksEvents, runStreamCycleAux, blocksTextFrags, List.map_nil,
      List.append_nil, List.append_nil, ← h]
  | cons b blks ih =>
    intro st bs hwf h
    rw [blocksEvents, runAux_append]
    simp only [runAux_blockEvents b (hwf b (List.mem_cons_self _ _)) st bs h]
    have h2 := ih
      { st with
        content_blocks := bs ++ [rawOf b]
        fragments := st.fragments ++ blockTextFrags b }
      (bs ++ [rawOf b]) (fun x hx => hwf x (List.mem_cons_of_mem _ hx)) rfl
    have hlen : (bs ++ [rawOf b]).length = bs.length + 1 := by simp
    rw [hlen] at h2
    rw [h2]
    simp [blocksTextFrags, List.append_assoc]

theorem runAux_messageEvents (m : StreamedMessage)
    (hwf : ∀ b ∈ m.blocks, fragsOf b ≠ []) :
    runStreamCycleAux initCycleState (messageEvents m) =
      ({ messageRole := some m.role, content_blocks := m.blocks.map rawOf
         stop_reason := some m.stopReason, metadataSeen := true
         fragments := blocksTextFrags m.blocks ++ ["\n"] }, none) := by
  rw [messageEvents, runStreamCycleAux]
  have hstart : processStreamEvent initCycleState (.messageStart m.role) =
      .ok { initCycleState with messageRole := some m.role } := rfl
  simp only [hstart]
  rw [runAux_append]
  have hblocks := runAux_blocksEvents m.blocks
    { initCycleState with messageRole := some m.role } [] hwf rfl
  simp only [List.length_nil] at hblocks
  simp only [hblocks]
  simp [runStreamCycleAux, processStreamEvent, initCycleState]

theorem mapM_finalize_rawOf (parse : String → Json) (blocks : List StreamedBlock) :
    (blocks.map rawOf).mapM (finalizeBlock parse) = .ok (blocks.map (finalOf parse)) := by
  induction blocks with
  | nil => rw [List.map_nil, List.map_nil, List.mapM_nil]; rfl
  | cons b blks ih =>
    rw [List.map_cons, List.map_cons, List.mapM_cons]
    have hb : finalizeBlock parse (rawOf b) = .ok (finalOf parse b) := by
      cases b with
      | textBlock frags => rfl
      | toolBlock id name frags => rfl
    rw [hb, ih]
    rfl

theorem finish_messageEvents (parse : String → Json) (m : StreamedMessage) :
    finishStreamCycle parse
      { messageRole := some m.role, content_blocks := m.blocks.map rawOf
        stop_reason := some m.stopReason, metadataSeen := true
        fragments := blocksTextFrags m.blocks ++ ["\n"] } =
      .ok ({ role := m.role, content := m.blocks.map (finalOf parse) },
        m.blocks.map (finalOf parse), m.stopReason) := by
  rw [finishStreamCycle]
  simp only [mapM_finalize_rawOf parse m.blocks]
  rfl

theorem assembled_messageEvents (parse : String → Json) (m : StreamedMessage)
    (hwf : ∀ b ∈ m.blocks, fragsOf b ≠ []) :
    assembledResponse parse (messageEvents m) = .ok (responseOf parse m) := by
  rw [assembledResponse]
  simp only [runAux_messageEvents m hwf, finish_messageEvents parse m]
  rfl

theorem concatAll_filter_ne (fs : List String) :
    concatAll (fs.filter (fun f => f ≠ "")) = concatAll fs := by
  induction fs with
  | nil => rfl
  | cons f fs ih =>
    rw [List.filter_cons]
    by_cases hf : f = ""
    · rw [if_neg (by simp [hf]), ih, hf]
      simp [concatAll]
    · rw [if_pos (by simp [hf]), concatAll, concatAll, ih]

theorem concat_blocksTextFrags (blocks : List StreamedBlock) :
    concatAll (blocksTextFrags blocks) = concatAll (streamedTextContents blocks) := by
  induction blocks with
  | nil => rfl
  | cons b blks ih =>
    cases b with
    | textBlock frags =>
      rw [blocksTextFrags, concatAll_append, blockTextFrags, concatAll_filter_ne, ih]
      rfl
    | toolBlock id name frags =>
      rw [blocksTextFrags, concatAll_append, blockTextFrags, ih]
      rw [show streamedTextContents (StreamedBlock.toolBlock id name frags :: blks) =
        streamedTextContents blks from rfl]
      simp [concatAll]

theorem textBlocks_map_finalOf (parse : String → Json) (blocks : List StreamedBlock) :
    textBlocks (blocks.map (finalOf parse)) = streamedTextContents blocks := by
  induction blocks with
  | nil => rfl
  | cons b blks ih =>
    cases b with
    | textBlock frags =>
      simp [textBlocks, finalOf, streamedTextContents, List.filterMap_cons, ih,
        textBlocks] at ih ⊢
      exact ih
    | toolBlock id name frags =>
      simp [textBlocks, finalOf, streamedTextContents, List.filterMap_cons] at ih ⊢
      exact ih

theorem cycleMatches_messageEvents (parse : String → Json) (m : StreamedMessage)
    (hwf : ∀ b ∈ m.blocks, fragsOf b ≠ [])
    (hone : (streamedTextContents m.blocks).length = 1) :
    CycleMatches parse (messageEvents m) (responseOf parse m) := by
  refine ⟨assembled_messageEvents parse m hwf, ?_, ?_⟩
  · rw [cycleFragments, runAux_messageEvents m hwf]
    rw [show (responseOf parse m).content = m.blocks.map (finalOf parse) from rfl]
    rw [textBlocks_map_finalOf, concatAll_append, concat_blocksTextFrags]
    simp [concatAll]
  · rw [show (responseOf parse m).content = m.blocks.map (finalOf parse) from rfl]
    rw [textBlocks_map_finalOf]
    exact hone

theorem forall₂_cycleMatches (parse : String → Json) (ms : List StreamedMessage)
    (hwf : ∀ m ∈ ms, (∀ b ∈ m.blocks, fragsOf b ≠ []) ∧
      (streamedTextContents m.blocks).length = 1) :
    List.Forall₂ (CycleMatches parse) (ms.map messageEvents) (ms.map (responseOf parse)) := by
  induction ms with
  | nil => exact .nil
  | cons m ms ih =>
    rw [List.map_cons, List.map_cons]
    exact .cons
      (cycleMatches_messageEvents parse m (hwf m (List.mem_cons_self _ _)).1
        (hwf m (List.mem_cons_self _ _)).2)
      (ih (fun x hx => hwf x (List.mem_cons_of_mem _ hx)))

/-- **C7** (amended): for any turn of canonically streamed messages —
content blocks delivered sequentially, each non-empty, every message
but the last stopping with `tool_use` and the last with `end_turn` —
where each message carries exactly one text block, `converse` over the
responses those streams assemble to returns the newline-join of the
per-message texts, while the concatenation of all fragments yielded by
`converse_stream` over the same delta-event sequences equals that text
followed by one trailing `"\n"` separator (the separator fragment is
emitted at every message-stop, including the final one).  Both the
assembly and the per-cycle fragment/text correspondence are derived
from the event loop, via `cycleMatches_messageEvents`. -/
theorem C7_canonical_round_trip (parse : String → Json) (tools : ToolTable)
    (ms : List StreamedMessage)
    (hwf : ∀ m ∈ ms, (∀ b ∈ m.blocks, fragsOf b ≠ []) ∧
      (streamedTextContents m.blocks).length = 1)
    (hstops : StopsWithEndTurn (ms.map (responseOf parse)))
    (fuel : Nat) (hfuel : ms.length ≤ fuel)
    (user_input : String) (hu : user_input ≠ "") (history : List Message) :
    (BedrockConverseAgent.converse tools user_input history
        (ms.map (responseOf parse)) fuel).result =
      .ok (joinNewline (responsesTexts (ms.map (responseOf parse)))) ∧
    (BedrockConverseAgent.converse_stream parse tools user_input history
        (ms.map messageEvents) fuel).result = .ok () ∧
    concatAll (BedrockConverseAgent.converse_stream parse tools user_input history
        (ms.map messageEvents) fuel).fragments =
      joinNewline (responsesTexts (ms.map (responseOf parse))) ++ "\n" :=
  roundTrip_of_cycleMatches parse tools (ms.map messageEvents) (ms.map (responseOf parse))
    (forall₂_cycleMatches parse ms hwf) hstops fuel (by simpa using hfuel)
    user_input hu history

def c7Message : StreamedMessage :=
  { role := "assistant", blocks := [.textBlock ["hi"]], stopReason := "end_turn" }

/-- Witness for C7 (amended) at a concrete canonical single-cycle
stream delivering the text "hi". -/
theorem C7_witness :
    (BedrockConverseAgent.converse [] "go2" []
        ([c7Message].map (responseOf parse0)) 3).result =
      .ok (joinNewline (responsesTexts ([c7Message].map (responseOf parse0)))) ∧
    (BedrockConverseAgent.converse_stream parse0 [] "go2" []
        ([c7Message].map messageEvents) 3).result = .ok () ∧
    concatAll (BedrockConverseAgent.converse_stream parse0 [] "go2" []
        ([c7Message].map messageEvents) 3).fragments =
      joinNewline (responsesTexts ([c7Message].map (responseOf parse0))) ++ "\n" :=
  C7_canonical_round_trip parse0 [] [c7Message]
    (by
      intro m hm
      rcases List.mem_cons.mp hm with rfl | hm
      · exact ⟨by decide, by decide⟩
      · cases hm)
    rfl 3 (by decide) "go2" (by decide) []

/-! ### C3, streaming side -/

theorem streamLoop_dispatch_le (parse : String → Json) (tools : ToolTable) :
    ∀ (fuel : Nat) (cs : List (List StreamEvent)) (frags : List String)
      (history : List Message) (d : Nat),
      (BedrockConverseAgent.converseStreamLoop parse tools cs fuel
        frags history d).toolDispatchCycles ≤ d + fuel := by
  intro fuel
  induction fuel with
  | zero =>
    intro cs frags history d
    cases cs <;> simp [BedrockConverseAgent.converseStreamLoop]
  | succ fuel ih =>
    intro cs frags history d
    cases cs with
    | nil => simp [BedrockConverseAgent.converseStreamLoop]
    | cons ev cs' =>
      rw [BedrockConverseAgent.converseStreamLoop]
      rcases hq : runStreamCycleAux initCycleState ev with ⟨st, err⟩
      cases err with
      | some e => simp
      | none =>
        dsimp only
        cases hf : finishStreamCycle parse st with
        | error e => simp
        | ok p =>
          obtain ⟨msg, content, stop⟩ := p
          dsimp only
          by_cases h1 : stop = "tool_use"
          · rw [if_pos h1]
            calc (BedrockConverseAgent.converseStreamLoop parse tools cs' fuel
                  (frags ++ st.fragments)
                  ((history ++ [msg]) ++
                    [toolResultMessage (BedrockConverseAgent.invoke_tools tools
                      (toolUseBlocks content))])
                  (d + 1)).toolDispatchCycles ≤
                (d + 1) + fuel := ih cs' _ _ (d + 1)
              _ = d + (fuel + 1) := by omega
          · by_cases h2 : stop = "end_turn" <;> simp [h1, h2]

theorem streamLoop_all_tool_use (parse : String → Json) (tools : ToolTable) :
    ∀ (fuel : Nat) (cs : List (List StreamEvent)) (frags : List String)
      (history : List Message) (d : Nat),
      (∀ ev ∈ cs, ∃ r : ModelResponse,
        assembledResponse parse ev = .ok r ∧ r.stopReason = "tool_use") →
      fuel ≤ cs.length →
      (BedrockConverseAgent.converseStreamLoop parse tools cs fuel frags history d).result =
        .error "Too many successive tool invocations" ∧
      (BedrockConverseAgent.converseStreamLoop parse tools cs fuel
        frags history d).toolDispatchCycles = d + fuel := by
  intro fuel
  induction fuel with
  | zero =>
    intro cs frags history d _ _
    cases cs <;> simp [BedrockConverseAgent.converseStreamLoop]
  | succ fuel ih =>
    intro cs frags history d hall hlen
    cases cs with
    | nil => simp at hlen
    | cons ev cs' =>
      obtain ⟨r, hr, hstop⟩ := hall ev (List.mem_cons_self _ _)
      obtain ⟨st, m, hq, hf⟩ := assembled_ok_destruct parse ev r hr
      rw [BedrockConverseAgent.converseStreamLoop]
      simp only [hq, hf]
      rw [if_pos hstop]
      have hrec := ih cs' (frags ++ st.fragments)
        ((history ++ [m]) ++
          [toolResultMessage (BedrockConverseAgent.invoke_tools tools
            (toolUseBlocks r.content))])
        (d + 1) (fun x hx => hall x (List.mem_cons_of_mem _ hx))
        (by simpa using Nat.succ_le_succ_iff.mp hlen)
      refine ⟨hrec.1, ?_⟩
      rw [hrec.2]
      omega

/-- **C3** (amended): construction rejects a negative
`max_successive_tool_invocations` M and sets the loop bound to M + 1;
both `converse` and `converse_stream` dispatch at most M + 1 successive
tool-use cycles per call; and when the model returns stop-reason
`tool_use` on every invocation, either call raises its fatal
"Too many successive tool invocations" error after dispatching exactly
M + 1 tool-use cycles (one more than the configured maximum), rather
than looping forever. -/
theorem C3_cycle_bound_amended :
    (∀ m : Int, m < 0 →
      BedrockConverseAgent.initMaxConverseIterations m =
        .error "max_successive_tool_invocations must be positive") ∧
    (∀ M : Nat, BedrockConverseAgent.initMaxConverseIterations (M : Int) = .ok (M + 1)) ∧
    (∀ (tools : ToolTable) (rs : List ModelResponse) (fuel : Nat) (texts : List String)
      (history : List Message) (d : Nat),
      (BedrockConverseAgent.converseLoop tools rs fuel texts history d).toolDispatchCycles ≤
        d + fuel) ∧
    (∀ (tools : ToolTable) (user_input : String) (history : List Message)
      (rs : List ModelResponse) (M : Nat),
      user_input ≠ "" → (∀ r ∈ rs, r.stopReason = "tool_use") → M + 1 ≤ rs.length →
      (BedrockConverseAgent.converse tools user_input history rs (M + 1)).result =
        .error "Too many successive tool invocations:\x7bself.max_converse_iterations\x7d " ∧
      (BedrockConverseAgent.converse tools user_input history rs (M + 1)).toolDispatchCycles =
        M + 1) ∧
    (∀ (parse : String → Json) (tools : ToolTable) (cs : List (List StreamEvent))
      (fuel : Nat) (frags : List String) (history : List Message) (d : Nat),
      (BedrockConverseAgent.converseStreamLoop parse tools cs fuel
        frags history d).toolDispatchCycles ≤ d + fuel) ∧
    (∀ (parse : String → Json) (tools : ToolTable) (user_input : String)
      (history : List Message) (cs : List (List StreamEvent)) (M : Nat),
      user_input ≠ "" →
      (∀ ev ∈ cs, ∃ r : ModelResponse,
        assembledResponse parse ev = .ok r ∧ r.stopReason = "tool_use") →
      M + 1 ≤ cs.length →
      (BedrockConverseAgent.converse_stream parse tools user_input history cs (M + 1)).result =
        .error "Too many successive tool invocations" ∧
      (BedrockConverseAgent.converse_stream parse tools user_input history cs
        (M + 1)).toolDispatchCycles = M + 1) := by
  refine ⟨?_, ?_, ?_, ?_, ?_, ?_⟩
  · intro m hm
    simp [BedrockConverseAgent.initMaxConverseIterations, hm]
  · intro M
    simp [BedrockConverseAgent.initMaxConverseIterations]
  · intro tools rs fuel texts history d
    exact converseLoop_dispatch_le tools fuel rs texts history d
  · intro tools user_input history rs M hu hall hlen
    unfold BedrockConverseAgent.converse
    rw [if_neg hu]
    simpa using converseLoop_all_tool_use tools (M + 1) rs []
      (history ++ [userMessage user_input]) 0 hall hlen
  · intro parse tools cs fuel frags history d
    exact streamLoop_dispatch_le parse tools fuel cs frags history d
  · intro parse tools user_input history cs M hu hall hlen
    unfold BedrockConverseAgent.converse_stream
    rw [if_neg hu]
    simpa using streamLoop_all_tool_use parse tools (M + 1) cs []
      (history ++ [userMessage user_input]) 0 hall hlen

def c3ToolUseEvents : List StreamEvent :=
  [.messageStart "assistant",
   .contentBlockStart (toolUseStartBlock "t1" "nope"),
   .contentBlockDelta { contentBlockIndex := 0, delta := .toolUseInput "[1]" },
   .messageStop "tool_use",
   .metadata]

def c3StreamResponse : ModelResponse :=
  { content := [.toolUse { toolUseId := "t1", name := "nope", input := Json.obj [] }]
    stopReason := "tool_use" }

/-- Witness for C3 (amended) at concrete inputs: a negative bound is
rejected, and with M = 1 and two successive tool-use model responses —
non-streaming and streamed alike — each call errors out after
dispatching exactly two tool-use cycles. -/
theorem C3_witness :
    BedrockConverseAgent.initMaxConverseIterations (-1) =
      .error "max_successive_tool_invocations must be positive" ∧
    ((BedrockConverseAgent.converse [] "hi" []
        [c3ToolUseResponse, c3ToolUseResponse] 2).result =
      .error "Too many successive tool invocations:\x7bself.max_converse_iterations\x7d " ∧
    (BedrockConverseAgent.converse [] "hi" []
        [c3ToolUseResponse, c3ToolUseResponse] 2).toolDispatchCycles = 2) ∧
    ((BedrockConverseAgent.converse_stream parse0 [] "hi" []
        [c3ToolUseEvents, c3ToolUseEvents] 2).result =
      .error "Too many successive tool invocations" ∧
    (BedrockConverseAgent.converse_stream parse0 [] "hi" []
        [c3ToolUseEvents, c3ToolUseEvents] 2).toolDispatchCycles = 2) :=
  ⟨C3_cycle_bound_amended.1 (-1) (by decide),
    C3_cycle_bound_amended.2.2.2.1 [] "hi" [] [c3ToolUseResponse, c3ToolUseResponse] 1
      (by decide)
      (by
        intro r hr
        rcases List.mem_cons.mp hr with rfl | hr
        · rfl
        · rcases List.mem_cons.mp hr with rfl | hr
          · rfl
          · cases hr)
      (by decide),
    C3_cycle_bound_amended.2.2.2.2.2 parse0 [] "hi" [] [c3ToolUseEvents, c3ToolUseEvents] 1
      (by decide)
      (by
        intro ev hev
        rcases List.mem_cons.mp hev with rfl | hev
        · exact ⟨c3StreamResponse, rfl, rfl⟩
        · rcases List.mem_cons.mp hev with rfl | hev
          · exact ⟨c3StreamResponse, rfl, rfl⟩
          · cases hev)
      (by decide)⟩

end GenAIToolkit
